import Mathlib

/-!
Quiz session controller of `src/screens/Quiz.js`.

A shallow embedding of the state kept by the `Quiz` component (its `useState`
cells and the target of the progress animation), of its three event handlers
`validateAnswer`, `handleNext`, `restartQuiz`, and of the parts of the render
that decide what the user sees and can press: the option buttons, the next
button and the pass test of the score modal.

Every handler runs inside one render, so it reads the state of that render and
its setters take effect together: a handler is a function from the state before
to the state after.
-/

namespace Quiz

/-! ## Data model -/

/-- One record of the question bank imported from `dummy-data/questions`: the
fields the component reads are `question`, `options` and `correct_option`. -/
structure Question where
  question : String
  options : List String
  correct_option : String
deriving DecidableEq, Repr

/-- The `useState` cells of `Quiz` (lines 10-16) together with the `toValue` last
handed to `Animated.timing(progress, ...)` (0 for the fresh `Animated.Value(0)`
of line 167). `null` is `none`. -/
structure State where
  currentQuestionIndex : Nat
  currentOptionSelected : Option String
  correctOption : Option String
  isOptionsDisabled : Bool
  score : Nat
  showNextButton : Bool
  showScoreModal : Bool
  progress : Nat
deriving DecidableEq, Repr

/-- The two phases of a session: the score modal is hidden or visible. -/
inductive Phase where
  | InProgress
  | Completed
deriving DecidableEq, Repr

/-- The phase is read off `showScoreModal` (the `visible` prop of the modal,
line 225). -/
def phase (s : State) : Phase :=
  if s.showScoreModal then Phase.Completed else Phase.InProgress

/-- State of a freshly mounted component (lines 10-16 and 167): every initialiser
is a constant, none looks at the question bank. -/
def initial : State :=
  { currentQuestionIndex := 0
    currentOptionSelected := none
    correctOption := none
    isOptionsDisabled := false
    score := 0
    showNextButton := false
    showScoreModal := false
    progress := 0 }

/-- The lookup `allQuestions[currentQuestionIndex]`; `none` is `undefined`. -/
def currentQuestion (allQuestions : List Question) (s : State) : Option Question :=
  allQuestions[s.currentQuestionIndex]?

/-! ## Event handlers -/

/-- The handler `validateAnswer` (lines 18-29). Line 19 reads a property of
`allQuestions[currentQuestionIndex]`; when that is `undefined` the read throws a
`TypeError` before any setter has run, which is the result `none`. The handler
itself does not look at `isOptionsDisabled`. -/
def validateAnswer (allQuestions : List Question) (s : State) (selectedOption : String) :
    Option State :=
  match allQuestions[s.currentQuestionIndex]? with
  | none => none
  | some q =>
    let correct_option := q.correct_option
    some { s with
      currentOptionSelected := some selectedOption
      correctOption := some correct_option
      isOptionsDisabled := true
      score := if selectedOption = correct_option then s.score + 1 else s.score
      showNextButton := true }

/-- The handler `handleNext` (lines 31-48). The test of line 32 compares numbers,
so `allQuestions.length - 1` is `-1` for an empty bank: the subtraction is done
in `Int`. The animation target of line 44 uses the index of the current render. -/
def handleNext (allQuestions : List Question) (s : State) : State :=
  let t : State :=
    if (s.currentQuestionIndex : Int) = (allQuestions.length : Int) - 1 then
      { s with showScoreModal := true }
    else
      { s with
        currentQuestionIndex := s.currentQuestionIndex + 1
        currentOptionSelected := none
        correctOption := none
        isOptionsDisabled := false
        showNextButton := false }
  { t with progress := s.currentQuestionIndex + 1 }

/-- The handler `restartQuiz` (lines 50-65). -/
def restartQuiz (s : State) : State :=
  { s with
    showScoreModal := false
    currentQuestionIndex := 0
    score := 0
    currentOptionSelected := none
    correctOption := none
    isOptionsDisabled := false
    showNextButton := false
    progress := 0 }

/-! ## Render: option buttons -/

namespace Colors

/-- Entry `success` of `constants/Colors.js`. -/
def success : String := "#00C851"

/-- Entry `error` of `constants/Colors.js`. -/
def error : String := "#ff4444"

/-- Entry `secondary` of `constants/Colors.js`. -/
def secondary : String := "#1E90FF"

/-- Entry `green` of `constants/Colors.js`. -/
def green : String := "#ABBF39"

end Colors

/-- The three looks of an option button. -/
inductive VisualState where
  | Neutral
  | CorrectHighlight
  | IncorrectHighlight
deriving DecidableEq, Repr

/-- The glyph drawn at the right of an option button (lines 125 and 136). -/
inductive Icon where
  | check
  | close
deriving DecidableEq, Repr

/-- The three-way choice made for each option in `renderOptions`: `option ==
correctOption`, else `option == currentOptionSelected`, else neither. A text is
never loosely equal to `null`. The choice reads no other state cell. -/
def optionVisualState (s : State) (option : String) : VisualState :=
  if s.correctOption = some option then VisualState.CorrectHighlight
  else if s.currentOptionSelected = some option then VisualState.IncorrectHighlight
  else VisualState.Neutral

/-- The `borderColor` of an option button (lines 99-103). -/
def borderColor (s : State) (option : String) : String :=
  if s.correctOption = some option then Colors.success
  else if s.currentOptionSelected = some option then Colors.error
  else Colors.secondary ++ "40"

/-- The `backgroundColor` of an option button (lines 104-108). -/
def backgroundColor (s : State) (option : String) : String :=
  if s.correctOption = some option then Colors.green ++ "20"
  else if s.currentOptionSelected = some option then Colors.error ++ "20"
  else Colors.secondary ++ "20"

/-- The check or cross of an option button (lines 118-142); `none` is `null`. -/
def optionIcon (s : State) (option : String) : Option Icon :=
  if s.correctOption = some option then some Icon.check
  else if s.currentOptionSelected = some option then some Icon.close
  else none

/-- Border colour that goes with a look. -/
def borderStyle : VisualState → String
  | VisualState.CorrectHighlight => Colors.success
  | VisualState.IncorrectHighlight => Colors.error
  | VisualState.Neutral => Colors.secondary ++ "40"

/-- Background colour that goes with a look. -/
def backgroundStyle : VisualState → String
  | VisualState.CorrectHighlight => Colors.green ++ "20"
  | VisualState.IncorrectHighlight => Colors.error ++ "20"
  | VisualState.Neutral => Colors.secondary ++ "20"

/-- Glyph that goes with a look. -/
def iconStyle : VisualState → Option Icon
  | VisualState.CorrectHighlight => some Icon.check
  | VisualState.IncorrectHighlight => some Icon.close
  | VisualState.Neutral => none

/-- One `TouchableOpacity` produced by `renderOptions` (lines 93-144). -/
structure OptionButton where
  key : String
  disabled : Bool
  borderColor : String
  backgroundColor : String
  icon : Option Icon
deriving DecidableEq, Repr

/-- The buttons of `renderOptions` (lines 88-149): one per option of the current
question, and nothing when the lookup is `undefined` (the `?.` of line 92). -/
def renderOptions (allQuestions : List Question) (s : State) : List OptionButton :=
  match allQuestions[s.currentQuestionIndex]? with
  | none => []
  | some q =>
    q.options.map fun option =>
      { key := option
        disabled := s.isOptionsDisabled
        borderColor := borderColor s option
        backgroundColor := backgroundColor s option
        icon := optionIcon s option }

/-- A press on the button of `option` (lines 94-95): a `TouchableOpacity` whose
`disabled` prop is true does not call `onPress`, otherwise `validateAnswer` runs. -/
def pressOption (allQuestions : List Question) (s : State) (option : String) : Option State :=
  if s.isOptionsDisabled then some s else validateAnswer allQuestions s option

/-- Number of options of `q`, other than its correct one, drawn as
`IncorrectHighlight` in state `s`. -/
def incorrectHighlights (q : Question) (s : State) : Nat :=
  (q.options.filter fun x =>
    decide (x ≠ q.correct_option ∧
      optionVisualState s x = VisualState.IncorrectHighlight)).length

/-! ## Render: next button -/

/-- Whether `renderNextButton` (lines 151-165) returns the button: it does when
`showNextButton` is true and returns `null` otherwise. -/
def renderNextButton (s : State) : Bool :=
  if s.showNextButton then true else false

/-- A press on the next button: `handleNext` runs when the button is rendered
(line 155); when `renderNextButton` returned `null` there is nothing to press. -/
def pressNext (allQuestions : List Question) (s : State) : State :=
  if s.showNextButton then handleNext allQuestions s else s

/-! ## Render: score modal -/

/-- The test `score > (allQuestions.length / 2)` of lines 240 and 250. Halving a
length is exact in binary floating point, so the quotient is the rational
`length / 2`. -/
def isPassing (score length : Nat) : Bool :=
  decide ((score : ℚ) > (length : ℚ) / 2)

/-- The headline of the score modal (line 240). -/
def scoreHeadline (score length : Nat) : String :=
  if (score : ℚ) > (length : ℚ) / 2 then "¡Lo lograste!" else "Oh vaya, quizá la próxima..."

/-- The colour of the score figure (line 250). -/
def scoreColor (score length : Nat) : String :=
  if (score : ℚ) > (length : ℚ) / 2 then Colors.success else Colors.error

/-! ## Runs -/

/-- States reached from `initial` by calling the three handlers in any order;
a call of `validateAnswer` that throws reaches nothing. -/
inductive Reachable (allQuestions : List Question) : State → Prop where
  | init : Reachable allQuestions initial
  | validate {s t : State} (o : String) :
      Reachable allQuestions s → validateAnswer allQuestions s o = some t →
      Reachable allQuestions t
  | next {s : State} : Reachable allQuestions s → Reachable allQuestions (handleNext allQuestions s)
  | restart {s : State} : Reachable allQuestions s → Reachable allQuestions (restartQuiz s)

/-- States reached from `initial` through the rendered controls: an option can be
pressed only while `disabled` is false (line 95), the next button only while it
is rendered (line 152), and `restartQuiz` is allowed at any time. -/
inductive Exposed (allQuestions : List Question) : State → Prop where
  | init : Exposed allQuestions initial
  | validate {s t : State} (o : String) :
      Exposed allQuestions s → s.isOptionsDisabled = false →
      validateAnswer allQuestions s o = some t → Exposed allQuestions t
  | next {s : State} :
      Exposed allQuestions s → s.showNextButton = true →
      Exposed allQuestions (handleNext allQuestions s)
  | restart {s : State} : Exposed allQuestions s → Exposed allQuestions (restartQuiz s)

/-- Answer the current question with `a`, then press next, for each `a` of the
list in order. -/
def playAll (allQuestions : List Question) : State → List String → Option State
  | s, [] => some s
  | s, a :: rest =>
    match validateAnswer allQuestions s a with
    | none => none
    | some t => playAll allQuestions (handleNext allQuestions t) rest

/-- Number of positions at which the answer equals the correct option of the
question at the same position. -/
def countCorrect (allQuestions : List Question) (answers : List String) : Nat :=
  (List.zip answers allQuestions).countP fun p => decide (p.1 = p.2.correct_option)

/-! ## Structural invariant -/

/-- The structural predicate on a session: the pick is set exactly when the
revealed option is, the options are locked exactly when the pick is set, the next
button is shown exactly when the options are locked, and the index is inside the
bank (it is a natural number, so it is at least 0). -/
def Inv (allQuestions : List Question) (s : State) : Prop :=
  (s.currentOptionSelected.isSome = true ↔ s.correctOption.isSome = true) ∧
  (s.isOptionsDisabled = true ↔ s.currentOptionSelected.isSome = true) ∧
  (s.showNextButton = true ↔ s.isOptionsDisabled = true) ∧
  s.currentQuestionIndex < allQuestions.length

instance (allQuestions : List Question) (s : State) : Decidable (Inv allQuestions s) := by
  unfold Inv
  infer_instance

/-! ## Sample banks -/

/-- A bank of three questions whose correct options are B, A, C. -/
def sampleBank : List Question :=
  [ { question := "q1", options := ["A", "B", "C"], correct_option := "B" },
    { question := "q2", options := ["A", "B", "C"], correct_option := "A" },
    { question := "q3", options := ["A", "B", "C"], correct_option := "C" } ]

/-- First question of the sample bank answered with B, its correct option. -/
def answeredFirst : State :=
  { initial with
    currentOptionSelected := some "B"
    correctOption := some "B"
    isOptionsDisabled := true
    score := 1
    showNextButton := true }

/-- A bank of one question with options A, B and correct option A. -/
def singleBank : List Question :=
  [ { question := "q", options := ["A", "B"], correct_option := "A" } ]

/-- Question of the single bank answered with B, a wrong option. -/
def answeredWrong : State :=
  { initial with
    currentOptionSelected := some "B"
    correctOption := some "A"
    isOptionsDisabled := true
    score := 0
    showNextButton := true }

/-- Question of the single bank answered with X, which is not one of its options. -/
def answeredOutside : State :=
  { initial with
    currentOptionSelected := some "X"
    correctOption := some "A"
    isOptionsDisabled := true
    score := 0
    showNextButton := true }

/-- The single bank answered correctly and then advanced: the score modal is up. -/
def completedSingle : State :=
  { initial with
    currentOptionSelected := some "A"
    correctOption := some "A"
    isOptionsDisabled := true
    score := 1
    showNextButton := true
    showScoreModal := true
    progress := 1 }

end Quiz

/-! ## Handler postconditions -/

namespace Quiz

/-- C1: in an in-progress, unanswered state whose index is inside a non-empty bank,
`validateAnswer` returns, for any option text, the state that records the pick and
the correct option of the current question, locks the options, shows the next
button, adds one to the score exactly when the pick equals the correct option,
and keeps the index, the phase and the progress target. -/
theorem validateAnswer_post (allQuestions : List Question) (s : State) (o : String)
    (_hne : allQuestions ≠ [])
    (_hphase : phase s = Phase.InProgress)
    (hidx : s.currentQuestionIndex < allQuestions.length)
    (_hlock : s.isOptionsDisabled = false) :
    ∃ t, validateAnswer allQuestions s o = some t ∧
      t.currentOptionSelected = some o ∧
      t.correctOption = some allQuestions[s.currentQuestionIndex].correct_option ∧
      t.isOptionsDisabled = true ∧
      t.showNextButton = true ∧
      (o = allQuestions[s.currentQuestionIndex].correct_option → t.score = s.score + 1) ∧
      (o ≠ allQuestions[s.currentQuestionIndex].correct_option → t.score = s.score) ∧
      t.currentQuestionIndex = s.currentQuestionIndex ∧
      phase t = phase s ∧
      t.progress = s.progress := by
  have hq : allQuestions[s.currentQuestionIndex]? = some allQuestions[s.currentQuestionIndex] :=
    List.getElem?_eq_getElem hidx
  have hv : validateAnswer allQuestions s o = some { s with
      currentOptionSelected := some o
      correctOption := some allQuestions[s.currentQuestionIndex].correct_option
      isOptionsDisabled := true
      score := if o = allQuestions[s.currentQuestionIndex].correct_option
        then s.score + 1 else s.score
      showNextButton := true } := by
    simp only [validateAnswer, hq]
  refine ⟨_, hv, rfl, rfl, rfl, rfl, ?_, ?_, rfl, rfl, rfl⟩
  · intro h
    simp [h]
  · intro h
    simp [h]

/-- C1 at a concrete input: a wrong pick on the first question of the sample bank. -/
theorem validateAnswer_post_witness :
    ∃ t, validateAnswer sampleBank initial "X" = some t ∧
      t.currentOptionSelected = some "X" ∧
      t.correctOption = some "B" ∧
      t.isOptionsDisabled = true ∧
      t.showNextButton = true ∧
      t.score = 0 ∧
      t.currentQuestionIndex = 0 ∧
      phase t = Phase.InProgress ∧
      t.progress = 0 :=
  let ⟨t, h1, h2, h3, h4, h5, _, h7, h8, h9, h10⟩ :=
    validateAnswer_post sampleBank initial "X" (by decide) (by decide) (by decide) (by decide)
  ⟨t, h1, h2, h3, h4, h5, h7 (by decide), h8, h9, h10⟩

/-- C2: in an answered, in-progress state whose index is inside a non-empty bank,
`handleNext` on the last question shows the score modal, keeps every other cell
and sets the progress target to the length of the bank; on any other question it
adds one to the index, clears the pick and the revealed option, unlocks the
options, hides the next button, keeps score and phase, and sets the progress
target to the new index. -/
theorem handleNext_post (allQuestions : List Question) (s : State)
    (hne : allQuestions ≠ [])
    (hlock : s.isOptionsDisabled = true)
    (hphase : phase s = Phase.InProgress)
    (hidx : s.currentQuestionIndex < allQuestions.length) :
    (s.currentQuestionIndex = allQuestions.length - 1 →
      phase (handleNext allQuestions s) = Phase.Completed ∧
      (handleNext allQuestions s).showScoreModal = true ∧
      (handleNext allQuestions s).currentQuestionIndex = s.currentQuestionIndex ∧
      (handleNext allQuestions s).score = s.score ∧
      (handleNext allQuestions s).currentOptionSelected = s.currentOptionSelected ∧
      (handleNext allQuestions s).correctOption = s.correctOption ∧
      (handleNext allQuestions s).isOptionsDisabled = true ∧
      (handleNext allQuestions s).showNextButton = s.showNextButton ∧
      (handleNext allQuestions s).progress = allQuestions.length) ∧
    (s.currentQuestionIndex ≠ allQuestions.length - 1 →
      (handleNext allQuestions s).currentQuestionIndex = s.currentQuestionIndex + 1 ∧
      (handleNext allQuestions s).currentOptionSelected = none ∧
      (handleNext allQuestions s).correctOption = none ∧
      (handleNext allQuestions s).isOptionsDisabled = false ∧
      (handleNext allQuestions s).showNextButton = false ∧
      (handleNext allQuestions s).score = s.score ∧
      phase (handleNext allQuestions s) = Phase.InProgress ∧
      (handleNext allQuestions s).progress = (handleNext allQuestions s).currentQuestionIndex) := by
  have hpos : 0 < allQuestions.length := List.length_pos.mpr hne
  constructor
  · intro hlast
    have hint : (s.currentQuestionIndex : Int) = (allQuestions.length : Int) - 1 := by omega
    have hn : handleNext allQuestions s =
        { s with showScoreModal := true, progress := s.currentQuestionIndex + 1 } := by
      simp only [handleNext, if_pos hint]
    rw [hn]
    refine ⟨rfl, rfl, rfl, rfl, rfl, rfl, hlock, rfl, ?_⟩
    show s.currentQuestionIndex + 1 = allQuestions.length
    omega
  · intro hmid
    have hint : ¬ (s.currentQuestionIndex : Int) = (allQuestions.length : Int) - 1 := by omega
    have hmodal : s.showScoreModal = false := by
      cases h : s.showScoreModal
      · rfl
      · simp [phase, h] at hphase
    have hn : handleNext allQuestions s =
        { s with
          currentQuestionIndex := s.currentQuestionIndex + 1
          currentOptionSelected := none
          correctOption := none
          isOptionsDisabled := false
          showNextButton := false
          progress := s.currentQuestionIndex + 1 } := by
      simp only [handleNext, if_neg hint]
    rw [hn]
    refine ⟨rfl, rfl, rfl, rfl, rfl, rfl, ?_, rfl⟩
    simp [phase, hmodal]

/-- C2 at a concrete input: the first of the three sample questions, answered. -/
theorem handleNext_post_witness :
    (handleNext sampleBank answeredFirst).currentQuestionIndex = 0 + 1 ∧
    (handleNext sampleBank answeredFirst).currentOptionSelected = none ∧
    (handleNext sampleBank answeredFirst).correctOption = none ∧
    (handleNext sampleBank answeredFirst).isOptionsDisabled = false ∧
    (handleNext sampleBank answeredFirst).showNextButton = false ∧
    (handleNext sampleBank answeredFirst).score = 1 ∧
    phase (handleNext sampleBank answeredFirst) = Phase.InProgress ∧
    (handleNext sampleBank answeredFirst).progress =
      (handleNext sampleBank answeredFirst).currentQuestionIndex :=
  (handleNext_post sampleBank answeredFirst (by decide) (by decide) (by decide)
    (by decide)).2 (by decide)

/-- C3: from any state whatsoever `restartQuiz` gives the state of a freshly
mounted component, cell by cell: index 0, score 0, no pick, no revealed option,
options unlocked, next button hidden, score modal hidden, progress target 0. -/
theorem restartQuiz_eq_initial (s : State) :
    restartQuiz s = initial ∧
    (restartQuiz s).currentQuestionIndex = 0 ∧
    (restartQuiz s).score = 0 ∧
    (restartQuiz s).currentOptionSelected = none ∧
    (restartQuiz s).correctOption = none ∧
    (restartQuiz s).isOptionsDisabled = false ∧
    (restartQuiz s).showNextButton = false ∧
    phase (restartQuiz s) = Phase.InProgress ∧
    (restartQuiz s).progress = 0 :=
  ⟨rfl, rfl, rfl, rfl, rfl, rfl, rfl, rfl, rfl⟩

end Quiz

/-! ## Whole sessions -/

namespace Quiz

/-- Inside the bank `validateAnswer` does not throw, and this is its result. -/
theorem validateAnswer_of_lt (allQuestions : List Question) (s : State) (o : String)
    (hidx : s.currentQuestionIndex < allQuestions.length) :
    validateAnswer allQuestions s o = some { s with
      currentOptionSelected := some o
      correctOption := some allQuestions[s.currentQuestionIndex].correct_option
      isOptionsDisabled := true
      score := if o = allQuestions[s.currentQuestionIndex].correct_option
        then s.score + 1 else s.score
      showNextButton := true } := by
  have hq : allQuestions[s.currentQuestionIndex]? = some allQuestions[s.currentQuestionIndex] :=
    List.getElem?_eq_getElem hidx
  simp only [validateAnswer, hq]

/-- Outside the bank `validateAnswer` throws. -/
theorem validateAnswer_of_ge (allQuestions : List Question) (s : State) (o : String)
    (hidx : allQuestions.length ≤ s.currentQuestionIndex) :
    validateAnswer allQuestions s o = none := by
  have hq : allQuestions[s.currentQuestionIndex]? = none := List.getElem?_eq_none hidx
  simp only [validateAnswer, hq]

/-- On the last question `handleNext` only shows the modal and moves the target. -/
theorem handleNext_last (allQuestions : List Question) (s : State)
    (h : s.currentQuestionIndex + 1 = allQuestions.length) :
    handleNext allQuestions s =
      { s with showScoreModal := true, progress := s.currentQuestionIndex + 1 } := by
  have hint : (s.currentQuestionIndex : Int) = (allQuestions.length : Int) - 1 := by omega
  simp only [handleNext, if_pos hint]

/-- On any other index `handleNext` moves to the next question. -/
theorem handleNext_step (allQuestions : List Question) (s : State)
    (h : s.currentQuestionIndex + 1 ≠ allQuestions.length) :
    handleNext allQuestions s =
      { s with
        currentQuestionIndex := s.currentQuestionIndex + 1
        currentOptionSelected := none
        correctOption := none
        isOptionsDisabled := false
        showNextButton := false
        progress := s.currentQuestionIndex + 1 } := by
  have hint : ¬ (s.currentQuestionIndex : Int) = (allQuestions.length : Int) - 1 := by omega
  simp only [handleNext, if_neg hint]

/-- Counting over no answers gives zero. -/
theorem countCorrect_nil (allQuestions : List Question) : countCorrect allQuestions [] = 0 := by
  simp [countCorrect]

/-- Counting peels one question and one answer at a time. -/
theorem countCorrect_cons (q : Question) (allQuestions : List Question) (a : String)
    (answers : List String) :
    countCorrect (q :: allQuestions) (a :: answers) =
      (if a = q.correct_option then 1 else 0) + countCorrect allQuestions answers := by
  simp only [countCorrect, List.zip_cons_cons, List.countP_cons, decide_eq_true_eq]
  omega

/-- A run of answer-then-next pairs from an unanswered in-progress state: it never
throws while the answers fit in the rest of the bank, the score grows by the
number of correct answers, and the run ends unanswered at the index after the
last answer, or completed on the last index when the answers use up the bank. -/
theorem playAll_run (allQuestions : List Question) :
    ∀ (answers : List String) (s : State),
      s.currentQuestionIndex + answers.length ≤ allQuestions.length →
      s.isOptionsDisabled = false → s.currentOptionSelected = none →
      s.correctOption = none → s.showNextButton = false → s.showScoreModal = false →
      ∃ u, playAll allQuestions s answers = some u ∧
        u.score = s.score + countCorrect (allQuestions.drop s.currentQuestionIndex) answers ∧
        (s.currentQuestionIndex + answers.length < allQuestions.length →
          u.currentQuestionIndex = s.currentQuestionIndex + answers.length ∧
          u.isOptionsDisabled = false ∧ u.currentOptionSelected = none ∧
          u.correctOption = none ∧ u.showNextButton = false ∧ u.showScoreModal = false) ∧
        (answers ≠ [] → s.currentQuestionIndex + answers.length = allQuestions.length →
          u.currentQuestionIndex + 1 = allQuestions.length ∧ u.showScoreModal = true ∧
          u.isOptionsDisabled = true) := by
  intro answers
  induction answers with
  | nil =>
    intro s _ h1 h2 h3 h4 h5
    refine ⟨s, rfl, ?_, ?_, ?_⟩
    · rw [countCorrect_nil]; rfl
    · intro _
      exact ⟨rfl, h1, h2, h3, h4, h5⟩
    · intro h
      exact absurd rfl h
  | cons a rest ih =>
    intro s hfit h1 h2 h3 h4 h5
    simp only [List.length_cons] at hfit
    have hidx : s.currentQuestionIndex < allQuestions.length := by omega
    have hdrop : allQuestions.drop s.currentQuestionIndex =
        allQuestions[s.currentQuestionIndex] :: allQuestions.drop (s.currentQuestionIndex + 1) :=
      List.drop_eq_getElem_cons hidx
    simp only [playAll, validateAnswer_of_lt allQuestions s a hidx, hdrop, countCorrect_cons,
      List.length_cons]
    by_cases hlast : s.currentQuestionIndex + 1 = allQuestions.length
    · have hrest : rest = [] := List.eq_nil_of_length_eq_zero (by omega)
      subst hrest
      rw [handleNext_last allQuestions (⟨s.currentQuestionIndex, some a,
        some allQuestions[s.currentQuestionIndex].correct_option, true,
        if a = allQuestions[s.currentQuestionIndex].correct_option then s.score + 1 else s.score,
        true, s.showScoreModal, s.progress⟩ : State) hlast]
      refine ⟨_, rfl, ?_, ?_, ?_⟩
      · simp only [countCorrect_nil]
        split <;> simp
      · intro h
        simp only [List.length_nil] at h
        omega
      · intro _ _
        exact ⟨hlast, rfl, rfl⟩
    · rw [handleNext_step allQuestions (⟨s.currentQuestionIndex, some a,
        some allQuestions[s.currentQuestionIndex].correct_option, true,
        if a = allQuestions[s.currentQuestionIndex].correct_option then s.score + 1 else s.score,
        true, s.showScoreModal, s.progress⟩ : State) hlast]
      obtain ⟨u, hu, hscore, hmid, hend⟩ := ih
        { s with
          currentQuestionIndex := s.currentQuestionIndex + 1
          currentOptionSelected := none
          correctOption := none
          isOptionsDisabled := false
          score := if a = allQuestions[s.currentQuestionIndex].correct_option
            then s.score + 1 else s.score
          showNextButton := false
          progress := s.currentQuestionIndex + 1 }
        (by show s.currentQuestionIndex + 1 + rest.length ≤ allQuestions.length; omega)
        rfl rfl rfl rfl h5
      refine ⟨u, hu, ?_, ?_, ?_⟩
      · have hscore2 : u.score =
            (if a = allQuestions[s.currentQuestionIndex].correct_option
              then s.score + 1 else s.score) +
            countCorrect (allQuestions.drop (s.currentQuestionIndex + 1)) rest := hscore
        rw [hscore2]
        split <;> omega
      · intro h
        have := hmid (by show s.currentQuestionIndex + 1 + rest.length < allQuestions.length; omega)
        refine ⟨?_, this.2⟩
        rw [this.1]
        show s.currentQuestionIndex + 1 + rest.length = _
        omega
      · intro _ h
        have hr : rest ≠ [] := by
          intro h0
          subst h0
          simp only [List.length_nil] at h
          omega
        exact hend hr (by show s.currentQuestionIndex + 1 + rest.length = allQuestions.length; omega)

end Quiz

namespace Quiz

/-- C4: over a non-empty bank of length n, answering and pressing next n times from
the initial state never throws and ends with the score modal shown, the index at
n - 1 and the score equal to the number of positions where the answer is the
correct option; after the first k < n pairs the state is in progress and
unanswered, at index k, with the score counted over those k answers. -/
theorem playAll_scoring (allQuestions : List Question) (answers : List String)
    (hne : allQuestions ≠ []) (hlen : answers.length = allQuestions.length) :
    (∃ t, playAll allQuestions initial answers = some t ∧
      phase t = Phase.Completed ∧
      t.currentQuestionIndex = allQuestions.length - 1 ∧
      t.score = countCorrect allQuestions answers) ∧
    (∀ k, k < allQuestions.length →
      ∃ u, playAll allQuestions initial (answers.take k) = some u ∧
        phase u = Phase.InProgress ∧
        u.isOptionsDisabled = false ∧
        u.currentOptionSelected = none ∧
        u.correctOption = none ∧
        u.showNextButton = false ∧
        u.currentQuestionIndex = k ∧
        u.score = countCorrect allQuestions (answers.take k)) := by
  have hpos : 0 < allQuestions.length := List.length_pos.mpr hne
  constructor
  · obtain ⟨t, ht, hscore, _, hend⟩ := playAll_run allQuestions answers initial
      (by show 0 + answers.length ≤ allQuestions.length; omega) rfl rfl rfl rfl rfl
    have hans : answers ≠ [] := by
      intro h0
      rw [h0] at hlen
      simp only [List.length_nil] at hlen
      omega
    have h := hend hans (by show 0 + answers.length = allQuestions.length; omega)
    refine ⟨t, ht, ?_, by omega, ?_⟩
    · simp [phase, h.2.1]
    · rw [hscore]
      show 0 + countCorrect (allQuestions.drop 0) answers = _
      simp
  · intro k hk
    have hk2 : (answers.take k).length = k := by
      rw [List.length_take]
      omega
    obtain ⟨u, hu, hscore, hmid, _⟩ := playAll_run allQuestions (answers.take k) initial
      (by show 0 + (answers.take k).length ≤ allQuestions.length; omega) rfl rfl rfl rfl rfl
    have h := hmid (by show 0 + (answers.take k).length < allQuestions.length; omega)
    refine ⟨u, hu, ?_, h.2.1, h.2.2.1, h.2.2.2.1, h.2.2.2.2.1, ?_, ?_⟩
    · simp [phase, h.2.2.2.2.2]
    · rw [h.1, hk2]
      show 0 + k = k
      omega
    · rw [hscore]
      show 0 + countCorrect (allQuestions.drop 0) (answers.take k) = _
      simp

/-- C4 at the sample bank with answers B, X, C: the run ends completed at index 2
with score 2, and the scores after one and two pairs are 1 and 1. -/
theorem playAll_scoring_witness :
    (∃ t, playAll sampleBank initial ["B", "X", "C"] = some t ∧
      phase t = Phase.Completed ∧ t.currentQuestionIndex = 2 ∧ t.score = 2) ∧
    (∃ u, playAll sampleBank initial ["B"] = some u ∧
      phase u = Phase.InProgress ∧ u.currentQuestionIndex = 1 ∧ u.score = 1) ∧
    (∃ u, playAll sampleBank initial ["B", "X"] = some u ∧
      phase u = Phase.InProgress ∧ u.currentQuestionIndex = 2 ∧ u.score = 1) :=
  have h := playAll_scoring sampleBank ["B", "X", "C"] (by decide) (by decide)
  let ⟨t, a1, a2, a3, a4⟩ := h.1
  let ⟨u, b1, b2, _, _, _, _, b3, b4⟩ := h.2 1 (by decide)
  let ⟨v, c1, c2, _, _, _, _, c3, c4⟩ := h.2 2 (by decide)
  ⟨⟨t, a1, a2, a3, a4.trans (by decide)⟩, ⟨u, b1, b2, b3, b4.trans (by decide)⟩,
    ⟨v, c1, c2, c3, c4.trans (by decide)⟩⟩

end Quiz

/-! ## Locked options -/

namespace Quiz

/-- C5, as stated, fails for the handler itself: on the single bank, after the wrong
pick B the options are locked, yet a second call of `validateAnswer` with A
replaces the recorded pick and raises the score from 0 to 1. -/
theorem validateAnswer_locked_counterexample :
    singleBank ≠ [] ∧
    validateAnswer singleBank initial "B" = some answeredWrong ∧
    answeredWrong.isOptionsDisabled = true ∧
    answeredWrong.score = 0 ∧
    validateAnswer singleBank answeredWrong "A" ≠ some answeredWrong ∧
    (validateAnswer singleBank answeredWrong "A").map (fun t => t.currentOptionSelected)
      = some (some "A") ∧
    (validateAnswer singleBank answeredWrong "A").map (fun t => t.score) = some 1 := by
  decide

/-- C5, amended: a press on an option button while the options are locked leaves
the state as it is; so from an unlocked state inside a non-empty bank, pressing
o1 and then a different o2 keeps the pick o1 and the score set by the first
press only. -/
theorem pressOption_locked (allQuestions : List Question) (s : State) (o1 o2 : String)
    (_hne : allQuestions ≠ []) :
    (s.isOptionsDisabled = true → pressOption allQuestions s o2 = some s) ∧
    (s.isOptionsDisabled = false → ∀ hidx : s.currentQuestionIndex < allQuestions.length,
      o1 ≠ o2 →
      ∃ t, pressOption allQuestions s o1 = some t ∧
        pressOption allQuestions t o2 = some t ∧
        t.currentOptionSelected = some o1 ∧
        t.score = (if o1 = allQuestions[s.currentQuestionIndex].correct_option
          then s.score + 1 else s.score)) := by
  constructor
  · intro hlock
    simp only [pressOption, hlock, if_true]
  · intro hlock hidx _
    have h1 := validateAnswer_of_lt allQuestions s o1 hidx
    have h2 : pressOption allQuestions s o1 = validateAnswer allQuestions s o1 := by
      simp [pressOption, hlock]
    rw [h2, h1]
    refine ⟨_, rfl, ?_, rfl, rfl⟩
    simp only [pressOption, if_true]

/-- C5 amended, at a concrete input: on the single bank, pressing B and then A
leaves the pick B and the score 0, and a press on the locked state changes
nothing. -/
theorem pressOption_locked_witness :
    pressOption singleBank answeredWrong "A" = some answeredWrong ∧
    ∃ t, pressOption singleBank initial "B" = some t ∧
      pressOption singleBank t "A" = some t ∧
      t.currentOptionSelected = some "B" ∧
      t.score = 0 :=
  ⟨(pressOption_locked singleBank answeredWrong "B" "A" (by decide)).1 (by decide),
    (pressOption_locked singleBank initial "B" "A" (by decide)).2 (by decide) (by decide)
      (by decide)⟩

/-! ## Pass test -/

/-- The comparison of the pass test, cleared of its division. -/
theorem gt_half_iff (score length : Nat) :
    (score : ℚ) > (length : ℚ) / 2 ↔ length < 2 * score := by
  rw [gt_iff_lt, div_lt_iff₀ (by norm_num : (0 : ℚ) < 2)]
  constructor
  · intro h
    have h2 : length < score * 2 := by exact_mod_cast h
    omega
  · intro h
    have h2 : length < score * 2 := by omega
    exact_mod_cast h2

/-- C6: the pass test holds exactly when twice the score exceeds the number of
questions; 3 of 5 passes and 2 of 4 does not; for an odd number n of questions
the passing scores are those from (n + 1) / 2 on, for an even number those from
n / 2 + 1 on; the headline and the colour of the score modal make the same
decision. -/
theorem isPassing_threshold (score length : Nat) :
    (isPassing score length = true ↔ 2 * score > length) ∧
    isPassing 3 5 = true ∧
    isPassing 2 4 = false ∧
    (length % 2 = 1 → (isPassing score length = true ↔ (length + 1) / 2 ≤ score)) ∧
    (length % 2 = 0 → (isPassing score length = true ↔ length / 2 + 1 ≤ score)) ∧
    (scoreHeadline score length = "¡Lo lograste!" ↔ isPassing score length = true) ∧
    (scoreColor score length = Colors.success ↔ isPassing score length = true) ∧
    (scoreHeadline score length = "Oh vaya, quizá la próxima..." ↔
      isPassing score length = false) ∧
    (scoreColor score length = Colors.error ↔ isPassing score length = false) := by
  have key : ∀ a b : Nat, isPassing a b = true ↔ b < 2 * a := by
    intro a b
    simp only [isPassing, decide_eq_true_eq]
    exact gt_half_iff a b
  have keyF : ∀ a b : Nat, isPassing a b = false ↔ ¬ b < 2 * a := by
    intro a b
    rw [← key a b]
    cases isPassing a b <;> simp
  refine ⟨key score length, (key 3 5).2 (by decide), (keyF 2 4).2 (by decide), ?_, ?_, ?_, ?_,
    ?_, ?_⟩
  · intro hodd
    rw [key]
    omega
  · intro heven
    rw [key]
    omega
  · rw [key, ← gt_half_iff]
    simp only [scoreHeadline]
    split
    · simp [*]
    · simp only [*, iff_false]
      decide
  · rw [key, ← gt_half_iff]
    simp only [scoreColor]
    split
    · simp [*]
    · simp only [*, iff_false]
      decide
  · rw [keyF, ← gt_half_iff]
    simp only [scoreHeadline]
    split
    · simp only [*, not_true_eq_false, iff_false]
      decide
    · simp [*]
  · rw [keyF, ← gt_half_iff]
    simp only [scoreColor]
    split
    · simp only [*, not_true_eq_false, iff_false]
      decide
    · simp [*]

/-- C6 at concrete inputs: with 5 questions the passing scores start at 3, with 4
questions at 3 as well, so 2 of 4 fails. -/
theorem isPassing_threshold_witness :
    (isPassing 3 5 = true ↔ (5 + 1) / 2 ≤ 3) ∧ (isPassing 2 4 = true ↔ 4 / 2 + 1 ≤ 2) :=
  ⟨(isPassing_threshold 3 5).2.2.2.1 (by decide),
    (isPassing_threshold 2 4).2.2.2.2.1 (by decide)⟩

end Quiz

/-! ## Highlighting -/

namespace Quiz

/-- C7, as stated, fails for a pick outside the options: on the single bank
(distinct options A, B, correct option A) the pick X differs from the correct
option, yet after `validateAnswer` no option is drawn as `IncorrectHighlight`. -/
theorem highlight_outside_counterexample :
    singleBank ≠ [] ∧
    ["A", "B"].Nodup ∧ "A" ∈ ["A", "B"] ∧
    initial.isOptionsDisabled = false ∧ phase initial = Phase.InProgress ∧
    validateAnswer singleBank initial "X" = some answeredOutside ∧
    "X" ≠ "A" ∧
    optionVisualState answeredOutside "A" = VisualState.CorrectHighlight ∧
    incorrectHighlights ⟨"q", ["A", "B"], "A"⟩ answeredOutside = 0 := by
  decide

/-- After a pick `o` on a question with correct option `c`, an option other than
`c` is drawn as incorrect exactly when it is `o`. -/
theorem incorrectHighlights_submitted (q : Question) (s : State) (o : String)
    (hc : s.correctOption = some q.correct_option) (ho : s.currentOptionSelected = some o)
    (hnodup : q.options.Nodup) :
    incorrectHighlights q s = if o ≠ q.correct_option ∧ o ∈ q.options then 1 else 0 := by
  unfold incorrectHighlights
  rw [← List.countP_eq_length_filter]
  by_cases hoc : o = q.correct_option
  · have h0 : ¬ (o ≠ q.correct_option ∧ o ∈ q.options) := fun h => h.1 hoc
    rw [if_neg h0, List.countP_eq_zero]
    intro x _
    simp only [optionVisualState, hc, ho, Option.some.injEq, decide_eq_true_eq, not_and]
    intro hx
    have hx2 : ¬ q.correct_option = x := fun h => hx h.symm
    rw [if_neg hx2]
    by_cases hox : o = x
    · exact absurd (hox ▸ hoc) hx
    · rw [if_neg hox]
      decide
  · have hcount : List.countP (fun x => decide (x ≠ q.correct_option ∧
        optionVisualState s x = VisualState.IncorrectHighlight)) q.options
        = List.count o q.options := by
      rw [List.count_eq_countP]
      apply List.countP_congr
      intro x _
      simp only [optionVisualState, hc, ho, Option.some.injEq, decide_eq_true_eq, beq_iff_eq]
      constructor
      · rintro ⟨hx, hv⟩
        have hx2 : ¬ q.correct_option = x := fun h => hx h.symm
        rw [if_neg hx2] at hv
        by_cases hox : o = x
        · exact hox.symm
        · rw [if_neg hox] at hv
          exact absurd hv (by decide)
      · intro hxo
        subst hxo
        have hx2 : ¬ q.correct_option = x := fun h => hoc h.symm
        refine ⟨hoc, ?_⟩
        rw [if_neg hx2, if_pos rfl]
    rw [hcount, List.count_eq_of_nodup hnodup]
    by_cases hmem : o ∈ q.options
    · rw [if_pos hmem, if_pos ⟨hoc, hmem⟩]
    · rw [if_neg hmem, if_neg (fun h => hmem h.2)]

/-- C7, amended: in an unlocked in-progress state on a question with distinct
options that contain the correct one, after `validateAnswer` with any text the
correct option is drawn as `CorrectHighlight`, and the number of other options
drawn as `IncorrectHighlight` is one exactly when the pick differs from the
correct option and is one of the options, and zero otherwise. -/
theorem highlight_after_submit (allQuestions : List Question) (s : State) (o : String)
    (_hne : allQuestions ≠ [])
    (hidx : s.currentQuestionIndex < allQuestions.length)
    (hnodup : allQuestions[s.currentQuestionIndex].options.Nodup)
    (_hmem : allQuestions[s.currentQuestionIndex].correct_option ∈
      allQuestions[s.currentQuestionIndex].options)
    (_hlock : s.isOptionsDisabled = false) (_hphase : phase s = Phase.InProgress) :
    ∃ t, validateAnswer allQuestions s o = some t ∧
      optionVisualState t allQuestions[s.currentQuestionIndex].correct_option
        = VisualState.CorrectHighlight ∧
      (incorrectHighlights allQuestions[s.currentQuestionIndex] t = 1 ↔
        (o ≠ allQuestions[s.currentQuestionIndex].correct_option ∧
          o ∈ allQuestions[s.currentQuestionIndex].options)) ∧
      (incorrectHighlights allQuestions[s.currentQuestionIndex] t = 0 ↔
        ¬ (o ≠ allQuestions[s.currentQuestionIndex].correct_option ∧
          o ∈ allQuestions[s.currentQuestionIndex].options)) := by
  refine ⟨_, validateAnswer_of_lt allQuestions s o hidx, ?_, ?_, ?_⟩
  · simp [optionVisualState]
  · rw [incorrectHighlights_submitted _ _ o rfl rfl hnodup]
    split <;> simp [*]
  · rw [incorrectHighlights_submitted _ _ o rfl rfl hnodup]
    split <;> simp [*]

/-- C7 amended, at a concrete input: the wrong pick B on the single bank gives one
incorrect highlight, and the correct option A is drawn as correct. -/
theorem highlight_after_submit_witness :
    ∃ t, validateAnswer singleBank initial "B" = some t ∧
      optionVisualState t "A" = VisualState.CorrectHighlight ∧
      incorrectHighlights ⟨"q", ["A", "B"], "A"⟩ t = 1 :=
  let ⟨t, h1, h2, h3, _⟩ := highlight_after_submit singleBank initial "B" (by decide) (by decide)
    (by decide) (by decide) (by decide) (by decide)
  ⟨t, h1, h2, h3.2 (by decide)⟩

end Quiz

namespace Quiz

/-- A result of `validateAnswer` is locked and has both the pick and the revealed
option set; index, modal flag and target are those of the state before. -/
theorem validateAnswer_some (allQuestions : List Question) (s t : State) (o : String)
    (h : validateAnswer allQuestions s o = some t) :
    s.currentQuestionIndex < allQuestions.length ∧
    t.isOptionsDisabled = true ∧ t.showNextButton = true ∧
    t.currentOptionSelected = some o ∧ (∃ c, t.correctOption = some c) ∧
    t.currentQuestionIndex = s.currentQuestionIndex ∧
    t.showScoreModal = s.showScoreModal ∧
    s.score ≤ t.score ∧ t.score ≤ s.score + 1 := by
  by_cases hidx : s.currentQuestionIndex < allQuestions.length
  · rw [validateAnswer_of_lt allQuestions s o hidx] at h
    have ht := Option.some.inj h
    subst ht
    refine ⟨hidx, rfl, rfl, rfl, ⟨_, rfl⟩, rfl, rfl, ?_, ?_⟩
    · by_cases hc : o = allQuestions[s.currentQuestionIndex].correct_option <;> simp [hc]
    · by_cases hc : o = allQuestions[s.currentQuestionIndex].correct_option <;> simp [hc]
  · rw [validateAnswer_of_ge allQuestions s o (by omega)] at h
    exact absurd h (by simp)

/-- The lock flag, the pick and the revealed option are set and cleared together
in every state the handlers can produce. -/
theorem Reachable.locked_iff_set {allQuestions : List Question} {s : State}
    (hr : Reachable allQuestions s) :
    (s.isOptionsDisabled = false ∧ s.correctOption = none ∧ s.currentOptionSelected = none) ∨
    (s.isOptionsDisabled = true ∧ (∃ c, s.correctOption = some c) ∧
      (∃ o, s.currentOptionSelected = some o)) := by
  induction hr with
  | init => exact Or.inl ⟨rfl, rfl, rfl⟩
  | validate o _ hv _ =>
    have h := validateAnswer_some allQuestions _ _ o hv
    exact Or.inr ⟨h.2.1, h.2.2.2.2.1, ⟨o, h.2.2.2.1⟩⟩
  | @next s _ ih =>
    by_cases hlast : s.currentQuestionIndex + 1 = allQuestions.length
    · rw [handleNext_last allQuestions s hlast]
      exact ih
    · rw [handleNext_step allQuestions s hlast]
      exact Or.inl ⟨rfl, rfl, rfl⟩
  | restart _ _ => exact Or.inl ⟨rfl, rfl, rfl⟩

/-- C8: in every state reached from the initial one by the three handlers over a
non-empty bank, the three-way choice of the render gives `CorrectHighlight`
exactly when the options are locked and the option is the revealed one,
`IncorrectHighlight` exactly when they are locked and the option is the pick and
not the revealed one, and `Neutral` in every other case, so always while
unlocked; border colour, background colour and icon are each the image of that
choice under a one-to-one map, so the three copies agree. -/
theorem optionVisualState_spec (allQuestions : List Question) (s : State) (o : String)
    (_hne : allQuestions ≠ []) (hr : Reachable allQuestions s) :
    (optionVisualState s o = VisualState.CorrectHighlight ↔
      (s.isOptionsDisabled = true ∧ s.correctOption = some o)) ∧
    (optionVisualState s o = VisualState.IncorrectHighlight ↔
      (s.isOptionsDisabled = true ∧ s.currentOptionSelected = some o ∧
        s.correctOption ≠ some o)) ∧
    (optionVisualState s o = VisualState.Neutral ↔
      (¬ (s.isOptionsDisabled = true ∧ s.correctOption = some o) ∧
       ¬ (s.isOptionsDisabled = true ∧ s.currentOptionSelected = some o ∧
        s.correctOption ≠ some o))) ∧
    (s.isOptionsDisabled = false → optionVisualState s o = VisualState.Neutral) ∧
    borderColor s o = borderStyle (optionVisualState s o) ∧
    backgroundColor s o = backgroundStyle (optionVisualState s o) ∧
    optionIcon s o = iconStyle (optionVisualState s o) ∧
    Function.Injective borderStyle ∧
    Function.Injective backgroundStyle ∧
    Function.Injective iconStyle := by
  have hstyle : borderColor s o = borderStyle (optionVisualState s o) ∧
      backgroundColor s o = backgroundStyle (optionVisualState s o) ∧
      optionIcon s o = iconStyle (optionVisualState s o) := by
    unfold borderColor backgroundColor optionIcon optionVisualState
    by_cases h1 : s.correctOption = some o
    · simp only [if_pos h1, borderStyle, backgroundStyle, iconStyle, and_self]
    · by_cases h2 : s.currentOptionSelected = some o
      · simp only [if_neg h1, if_pos h2, borderStyle, backgroundStyle, iconStyle, and_self]
      · simp only [if_neg h1, if_neg h2, borderStyle, backgroundStyle, iconStyle, and_self]
  have hinj1 : Function.Injective borderStyle := by
    intro a b h
    cases a <;> cases b <;> first | rfl | exact absurd h (by decide)
  have hinj2 : Function.Injective backgroundStyle := by
    intro a b h
    cases a <;> cases b <;> first | rfl | exact absurd h (by decide)
  have hinj3 : Function.Injective iconStyle := by
    intro a b h
    cases a <;> cases b <;> first | rfl | exact absurd h (by decide)
  refine ⟨?_, ?_, ?_, ?_, hstyle.1, hstyle.2.1, hstyle.2.2, hinj1, hinj2, hinj3⟩
  · rcases hr.locked_iff_set with ⟨h1, h2, h3⟩ | ⟨h1, ⟨c, h2⟩, ⟨p, h3⟩⟩
    · simp [optionVisualState, h1, h2, h3]
    · by_cases hc : c = o <;> by_cases hp : p = o <;> simp [optionVisualState, h1, h2, h3, hc, hp]
  · rcases hr.locked_iff_set with ⟨h1, h2, h3⟩ | ⟨h1, ⟨c, h2⟩, ⟨p, h3⟩⟩
    · simp [optionVisualState, h1, h2, h3]
    · by_cases hc : c = o <;> by_cases hp : p = o <;> simp [optionVisualState, h1, h2, h3, hc, hp]
  · rcases hr.locked_iff_set with ⟨h1, h2, h3⟩ | ⟨h1, ⟨c, h2⟩, ⟨p, h3⟩⟩
    · simp [optionVisualState, h1, h2, h3]
    · by_cases hc : c = o <;> by_cases hp : p = o <;> simp [optionVisualState, h1, h2, h3, hc, hp]
  · intro hun
    rcases hr.locked_iff_set with ⟨_, h2, h3⟩ | ⟨h1, _, _⟩
    · simp [optionVisualState, h2, h3]
    · rw [hun] at h1
      exact absurd h1 (by decide)

/-- C8 at a concrete input: after the wrong pick B on the single bank, A is drawn
as correct, B as incorrect, and the border colour of A is the success colour. -/
theorem optionVisualState_spec_witness :
    optionVisualState answeredWrong "A" = VisualState.CorrectHighlight ∧
    optionVisualState answeredWrong "B" = VisualState.IncorrectHighlight ∧
    borderColor answeredWrong "A" = borderStyle (optionVisualState answeredWrong "A") :=
  have hr : Reachable singleBank answeredWrong :=
    Reachable.validate "B" Reachable.init (by decide)
  ⟨(optionVisualState_spec singleBank answeredWrong "A" (by decide) hr).1.2 (by decide),
    (optionVisualState_spec singleBank answeredWrong "B" (by decide) hr).2.1.2 (by decide),
    (optionVisualState_spec singleBank answeredWrong "A" (by decide) hr).2.2.2.2.1⟩

end Quiz

/-! ## Score bound -/

namespace Quiz

/-- The completed state of the single bank is reached through the rendered
controls: press A, then press next. -/
theorem exposed_completedSingle : Exposed singleBank completedSingle :=
  have h1 : Exposed singleBank
      { initial with
        currentOptionSelected := some "A"
        correctOption := some "A"
        isOptionsDisabled := true
        score := 1
        showNextButton := true } :=
    Exposed.validate "A" Exposed.init rfl (by decide)
  have h2 : handleNext singleBank
      { initial with
        currentOptionSelected := some "A"
        correctOption := some "A"
        isOptionsDisabled := true
        score := 1
        showNextButton := true } = completedSingle := by decide
  h2 ▸ Exposed.next h1 rfl

/-- C9, as stated, fails on completion: on the single bank, answering A (correct)
and pressing next gives, through the rendered controls, a completed state with
index 0 and score 1, and 1 is not at most 0 + 0. -/
theorem score_completed_counterexample :
    singleBank ≠ [] ∧
    Exposed singleBank completedSingle ∧
    phase completedSingle = Phase.Completed ∧
    completedSingle.currentQuestionIndex = 0 ∧
    completedSingle.score = 1 ∧
    ¬ (completedSingle.score ≤ completedSingle.currentQuestionIndex + 0) :=
  ⟨by decide, exposed_completedSingle, by decide, rfl, rfl, by decide⟩

/-- Through the rendered controls over a non-empty bank the index stays inside the
bank, the score is at most the index while unanswered and at most the index plus
one once answered, and the score modal is up only on the last index. -/
theorem Exposed.bounds {allQuestions : List Question} {s : State}
    (hne : allQuestions ≠ []) (hr : Exposed allQuestions s) :
    s.currentQuestionIndex < allQuestions.length ∧
    s.score ≤ s.currentQuestionIndex + 1 ∧
    (s.isOptionsDisabled = false → s.score ≤ s.currentQuestionIndex) ∧
    (s.showScoreModal = true → s.currentQuestionIndex + 1 = allQuestions.length) := by
  have hpos : 0 < allQuestions.length := List.length_pos.mpr hne
  induction hr with
  | init =>
    refine ⟨hpos, ?_, ?_, ?_⟩
    · show 0 ≤ 0 + 1
      omega
    · intro _
      show 0 ≤ 0
      omega
    · intro h
      exact absurd h (by decide)
  | @validate s t o _ hun hv ih =>
    have h := validateAnswer_some allQuestions s t o hv
    obtain ⟨i1, _, i3, i4⟩ := ih
    have hs := i3 hun
    refine ⟨by omega, by omega, ?_, ?_⟩
    · intro hf
      rw [h.2.1] at hf
      exact absurd hf (by decide)
    · intro hm
      rw [h.2.2.2.2.2.2.1] at hm
      have := i4 hm
      omega
  | @next s _ _ ih =>
    obtain ⟨i1, i2, i3, i4⟩ := ih
    by_cases hlast : s.currentQuestionIndex + 1 = allQuestions.length
    · rw [handleNext_last allQuestions s hlast]
      refine ⟨i1, i2, ?_, ?_⟩
      · intro hf
        exact i3 hf
      · intro _
        exact hlast
    · rw [handleNext_step allQuestions s hlast]
      refine ⟨?_, ?_, ?_, ?_⟩
      · show s.currentQuestionIndex + 1 < allQuestions.length
        omega
      · show s.score ≤ s.currentQuestionIndex + 1 + 1
        omega
      · intro _
        exact i2
      · intro hm
        exact absurd (i4 hm) hlast
  | restart _ _ =>
    refine ⟨hpos, ?_, ?_, ?_⟩
    · show 0 ≤ 0 + 1
      omega
    · intro _
      show 0 ≤ 0
      omega
    · intro h
      simp [restartQuiz] at h

/-- C9, amended: in every state reached through the rendered controls over a
non-empty bank the score is at least 0 and at most the index plus one, in
progress and completed alike (on completion the index stays on the last
question, so index plus one is the length of the bank), and the score is at
most the length of the bank. -/
theorem score_bound (allQuestions : List Question) (s : State)
    (hne : allQuestions ≠ []) (hr : Exposed allQuestions s) :
    0 ≤ s.score ∧
    (phase s = Phase.InProgress → s.score ≤ s.currentQuestionIndex + 1) ∧
    (phase s = Phase.Completed →
      s.score ≤ s.currentQuestionIndex + 1 ∧
      s.currentQuestionIndex + 1 = allQuestions.length) ∧
    s.score ≤ allQuestions.length := by
  obtain ⟨i1, i2, _, i4⟩ := Exposed.bounds hne hr
  refine ⟨Nat.zero_le _, fun _ => i2, ?_, by omega⟩
  intro hc
  refine ⟨i2, i4 ?_⟩
  cases hm : s.showScoreModal
  · simp [phase, hm] at hc
  · rfl

/-- C9 amended, at a concrete input: the completed state of the single bank has
score 1, index 0 and bank length 1. -/
theorem score_bound_witness :
    completedSingle.score ≤ completedSingle.currentQuestionIndex + 1 ∧
    completedSingle.currentQuestionIndex + 1 = singleBank.length ∧
    completedSingle.score ≤ singleBank.length :=
  have h := score_bound singleBank completedSingle (by decide) exposed_completedSingle
  ⟨(h.2.2.1 (by decide)).1, (h.2.2.1 (by decide)).2, h.2.2.2⟩

/-! ## Empty bank -/

/-- C10, as stated, fails: nothing rejects an empty bank. The state of the freshly
mounted component is in progress, and over the empty bank its current question
is undefined. -/
theorem empty_bank_counterexample :
    Exposed [] initial ∧
    phase initial = Phase.InProgress ∧
    currentQuestion [] initial = none :=
  ⟨Exposed.init, by decide, by decide⟩

/-- C10, amended: over the empty bank the component mounts in its usual initial
state, in progress at index 0 with an undefined current question; the render
then shows no option button and no next button, a direct call of
`validateAnswer` throws, and the initial state is the only state the rendered
controls can reach. -/
theorem empty_bank_stuck :
    phase initial = Phase.InProgress ∧
    initial.currentQuestionIndex = 0 ∧
    currentQuestion [] initial = none ∧
    renderOptions [] initial = [] ∧
    initial.showNextButton = false ∧
    (∀ o, validateAnswer [] initial o = none) ∧
    (∀ s, Exposed [] s → s = initial) := by
  refine ⟨by decide, rfl, by decide, by decide, rfl, ?_, ?_⟩
  · intro o
    exact validateAnswer_of_ge [] initial o (Nat.zero_le _)
  · intro s hr
    induction hr with
    | init => rfl
    | @validate s t o _ _ hv _ =>
      rw [validateAnswer_of_ge [] s o (Nat.zero_le _)] at hv
      exact absurd hv (by simp)
    | @next s _ hshow ih =>
      rw [ih] at hshow
      exact absurd hshow (by decide)
    | restart _ _ => rfl

/-- C10 amended, at a concrete input: restarting over the empty bank stays in the
initial state. -/
theorem empty_bank_stuck_witness : restartQuiz initial = initial :=
  empty_bank_stuck.2.2.2.2.2.2 (restartQuiz initial) (Exposed.restart Exposed.init)

end Quiz

/-! ## Structural invariant -/

namespace Quiz

/-- The initial state satisfies the invariant over a non-empty bank. -/
theorem inv_initial {allQuestions : List Question} (hne : allQuestions ≠ []) :
    Inv allQuestions initial := by
  have hpos : 0 < allQuestions.length := List.length_pos.mpr hne
  refine ⟨?_, ?_, ?_, hpos⟩ <;> decide

/-- From a state with the invariant `validateAnswer` does not throw, and its
result has the invariant, whether or not the options were locked. -/
theorem inv_validateAnswer {allQuestions : List Question} {s : State} (o : String)
    (h : Inv allQuestions s) :
    ∃ t, validateAnswer allQuestions s o = some t ∧ Inv allQuestions t := by
  refine ⟨_, validateAnswer_of_lt allQuestions s o h.2.2.2, ?_, ?_, ?_, h.2.2.2⟩ <;> simp

/-- The handler `handleNext` keeps the invariant. -/
theorem inv_handleNext {allQuestions : List Question} {s : State}
    (h : Inv allQuestions s) : Inv allQuestions (handleNext allQuestions s) := by
  by_cases hlast : s.currentQuestionIndex + 1 = allQuestions.length
  · rw [handleNext_last allQuestions s hlast]
    exact h
  · rw [handleNext_step allQuestions s hlast]
    have hidx := h.2.2.2
    refine ⟨?_, ?_, ?_, ?_⟩
    · simp
    · simp
    · simp
    · show s.currentQuestionIndex + 1 < allQuestions.length
      omega

/-- The handler `restartQuiz` gives a state with the invariant, from any state. -/
theorem inv_restartQuiz {allQuestions : List Question} (hne : allQuestions ≠ [])
    (s : State) : Inv allQuestions (restartQuiz s) :=
  inv_initial hne

/-- Every state the handlers can produce over a non-empty bank has the invariant. -/
theorem Reachable.inv {allQuestions : List Question} {s : State}
    (hne : allQuestions ≠ []) (hr : Reachable allQuestions s) : Inv allQuestions s := by
  induction hr with
  | init => exact inv_initial hne
  | validate o _ hv ih =>
    obtain ⟨u, hu, hinv⟩ := inv_validateAnswer o ih
    rw [hu] at hv
    exact Option.some.inj hv ▸ hinv
  | next _ ih => exact inv_handleNext ih
  | restart _ _ => exact inv_restartQuiz hne _

/-- A state reached through the rendered controls is reached by the handlers. -/
theorem Exposed.reachable {allQuestions : List Question} {s : State}
    (hr : Exposed allQuestions s) : Reachable allQuestions s := by
  induction hr with
  | init => exact Reachable.init
  | validate o _ _ hv ih => exact Reachable.validate o ih hv
  | next _ _ ih => exact Reachable.next ih
  | restart _ ih => exact Reachable.restart ih

/-- C11, as stated, fails for the handler itself: `handleNext` has no check of the
lock. Called on the unanswered initial state it moves the sample bank to index 1
and, on the single bank, shows the score modal with no recorded answer. -/
theorem handleNext_unanswered_counterexample :
    sampleBank ≠ [] ∧ singleBank ≠ [] ∧
    initial.isOptionsDisabled = false ∧
    initial.currentOptionSelected = none ∧
    handleNext sampleBank initial ≠ initial ∧
    (handleNext sampleBank initial).currentQuestionIndex = initial.currentQuestionIndex + 1 ∧
    phase (handleNext singleBank initial) = Phase.Completed ∧
    (handleNext singleBank initial).currentOptionSelected = none := by
  decide

/-- C11, amended: in every unanswered state reached through the rendered controls
over a non-empty bank the next button is not rendered, so a press on it does
nothing: the state, and with it the index and the phase, stay as they are. -/
theorem pressNext_unanswered (allQuestions : List Question) (s : State)
    (hne : allQuestions ≠ []) (hr : Exposed allQuestions s)
    (hun : s.isOptionsDisabled = false) :
    s.showNextButton = false ∧
    renderNextButton s = false ∧
    pressNext allQuestions s = s ∧
    (pressNext allQuestions s).currentQuestionIndex = s.currentQuestionIndex ∧
    phase (pressNext allQuestions s) = phase s := by
  have hinv := Reachable.inv hne hr.reachable
  have hshow : s.showNextButton = false := by
    cases h : s.showNextButton
    · rfl
    · have := hinv.2.2.1.1 h
      rw [hun] at this
      exact absurd this (by decide)
  have hpress : pressNext allQuestions s = s := by
    simp [pressNext, hshow]
  refine ⟨hshow, ?_, hpress, ?_, ?_⟩
  · simp [renderNextButton, hshow]
  · rw [hpress]
  · rw [hpress]

/-- C11 amended, at a concrete input: on the unanswered initial state of the sample
bank no next button is rendered and a press leaves the state as it is. -/
theorem pressNext_unanswered_witness :
    renderNextButton initial = false ∧ pressNext sampleBank initial = initial :=
  have h := pressNext_unanswered sampleBank initial (by decide) Exposed.init (by decide)
  ⟨h.2.1, h.2.2.1⟩

/-- C12: over a non-empty bank the structural predicate holds in the initial state
and is kept by `validateAnswer` for every option text (which does not throw on
such a state), by `handleNext` and by `restartQuiz`; so it holds in every state
the handlers can reach, where the current question is defined and the index is
below the length of the bank. -/
theorem inv_reachable (allQuestions : List Question) (hne : allQuestions ≠ []) :
    Inv allQuestions initial ∧
    (∀ s o, Inv allQuestions s →
      ∃ t, validateAnswer allQuestions s o = some t ∧ Inv allQuestions t) ∧
    (∀ s, Inv allQuestions s → Inv allQuestions (handleNext allQuestions s)) ∧
    (∀ s, Inv allQuestions s → Inv allQuestions (restartQuiz s)) ∧
    (∀ s, Reachable allQuestions s →
      Inv allQuestions s ∧
      (∃ q, currentQuestion allQuestions s = some q) ∧
      s.currentQuestionIndex ≠ allQuestions.length) := by
  refine ⟨inv_initial hne, fun s o h => inv_validateAnswer o h, fun s h => inv_handleNext h,
    fun s _ => inv_restartQuiz hne s, ?_⟩
  intro s hr
  have hinv := Reachable.inv hne hr
  have hidx : s.currentQuestionIndex < allQuestions.length := hinv.2.2.2
  refine ⟨hinv, ⟨allQuestions[s.currentQuestionIndex], ?_⟩, by omega⟩
  exact List.getElem?_eq_getElem hidx

/-- C12 at the sample bank: the invariant holds initially, after the first answer
and after the following advance, where the current question is the second one. -/
theorem inv_reachable_witness :
    Inv sampleBank initial ∧
    (∃ t, validateAnswer sampleBank initial "B" = some t ∧ Inv sampleBank t) ∧
    Inv sampleBank (handleNext sampleBank answeredFirst) ∧
    (∃ q, currentQuestion sampleBank (handleNext sampleBank answeredFirst) = some q) :=
  have h := inv_reachable sampleBank (by decide)
  have hr : Reachable sampleBank (handleNext sampleBank answeredFirst) :=
    Reachable.next (Reachable.validate "B" Reachable.init (by decide))
  ⟨h.1, h.2.1 initial "B" h.1, (h.2.2.2.2 _ hr).1, (h.2.2.2.2 _ hr).2.1⟩

end Quiz
